import Mathlib

/-!
Shallow embedding of the installer wizard orchestration logic from
src/ui/webui/src/components/AnacondaWizard.jsx.

The JSX file is UI state orchestration: a step tree built from current
application state, a flattener producing the navigable id sequence,
navigation guards, and side-effecting Next/Back/Quit handlers.  We embed
the step descriptors as an inductive tree, the pure helpers as Lean
functions, and the event handlers as explicit state transformers.  The
asynchronous external operations (applyStorage, resetPartitioning) are
split in the source into the call site and its onFail/onSuccess
continuations; we model them the same way: the handler returns the state
at the moment the external call is issued together with the request it
issued, and a separate function embeds the continuation closures, taking
the outcome of the external operation as a parameter.
-/

namespace Anaconda

/-- Step descriptor: the objects of the stepsOrder array in the source.
Fields mirror the JS object fields id, label, isHidden, steps; isHidden
and steps are optional in JS, hence Option here (none models an absent
field, matching the undefined checks in the source). -/
inductive Step : Type where
  | mk (id : String) (label : String) (isHidden : Option Bool) (steps : Option (List Step))

def Step.id : Step → String
  | .mk i _ _ _ => i

def Step.label : Step → String
  | .mk _ l _ _ => l

def Step.isHidden : Step → Option Bool
  | .mk _ _ h _ => h

def Step.steps : Step → Option (List Step)
  | .mk _ _ _ s => s

/-- The stepsOrder array (source lines 82-126), keeping only the fields the
navigation logic reads (components and data props are rendering-only).
The welcome step is present exactly when isBootIso; the two
disk-configuration children carry the complementary isHidden flags
computed from storageScenarioId. -/
def stepsOrder (isBootIso : Bool) (storageScenarioId : String) : List Step :=
  (if isBootIso then
    [Step.mk "installation-language" "Welcome" none none]
  else []) ++
  [Step.mk "installation-method" "Installation method" none none,
   Step.mk "disk-configuration" "Disk configuration" none (some
     [Step.mk "mount-point-mapping" "Manual disk configuration"
        (some (storageScenarioId != "mount-point-mapping")) none,
      Step.mk "disk-encryption" "Disk encryption"
        (some (storageScenarioId == "mount-point-mapping")) none]),
   Step.mk "installation-review" "Review and install" none none]

/-- Flattener (source lines 128-142): a group node (steps field present)
contributes the ids of its children whose isHidden is not exactly true;
a non-group node contributes its own id unconditionally.  The source
guard childStep?.isHidden !== true becomes the test against some true. -/
def getFlattenedStepsIds (steps : List Step) : List String :=
  steps.flatMap fun step =>
    match step.steps with
    | some children =>
        children.filterMap fun childStep =>
          if childStep.isHidden = some true then none else some childStep.id
    | none => [step.id]

/-- JS Array.prototype.findIndex on a list of ids: index of the first
occurrence, or -1 when absent.  Int-valued, as in the source. -/
def findIdxOpt (x : String) : List String → Option Nat
  | [] => none
  | a :: l => if a = x then some 0 else (findIdxOpt x l).map (· + 1)

def findIndexJS (l : List String) (x : String) : Int :=
  match findIdxOpt x l with
  | some i => (i : Int)
  | none => -1

/-- Source lines 148-151: a step is the finished step when its findIndex
in the flattened sequence equals length - 1. -/
def isFinishedStep (flattenedStepsIds : List String) (stepId : String) : Bool :=
  findIndexJS flattenedStepsIds stepId == (flattenedStepsIds.length : Int) - 1

/-- Source lines 153-157: jumping to a step is allowed when its findIndex
is at most the findIndex of the current step. -/
def canJumpToStep (flattenedStepsIds : List String) (stepId currentStepId : String) : Bool :=
  decide (findIndexJS flattenedStepsIds stepId ≤ findIndexJS flattenedStepsIds currentStepId)

/-- Contribution of one step descriptor to the flattened sequence, the
per-iteration body of the loop in getFlattenedStepsIds. -/
def nodeContrib (step : Step) : List String :=
  match step.steps with
  | some children =>
      children.filterMap fun childStep =>
        if childStep.isHidden = some true then none else some childStep.id
  | none => [step.id]

/-- Ids the flattener can inspect on one node: its own id together with the
ids of its immediate children (the flattener descends exactly one level). -/
def nodeIds (step : Step) : List String :=
  step.id :: (match step.steps with
    | some children => children.map Step.id
    | none => [])

/-- Every id carried by a descriptor of the tree, at the two levels the
flattener inspects; the distinct-ids hypothesis of C4 is Nodup of this. -/
def descriptorIds (steps : List Step) : List String :=
  steps.flatMap nodeIds

/-- Flattener contract written from the spec's words (Step Flattener,
section 4.2), for comparison with getFlattenedStepsIds: group nodes
contribute the ids of their children whose isHidden is not exactly true
and not their own id; non-group nodes contribute their own id
unconditionally. -/
def flattenedIdsOfSpec (steps : List Step) : List String :=
  steps.flatMap fun s =>
    match s.steps with
    | some children => (children.filter fun c => !(c.isHidden == some true)).map Step.id
    | none => [s.id]

/-- Lookup of a step descriptor by id, used to state C5 about the
disk-configuration group of the built tree. -/
def findStepById (steps : List Step) (i : String) : Option Step :=
  steps.find? fun s => s.id == i

/-- Opaque payload of a storage failure (the ex value passed to onFail). -/
structure StorageError where
  message : String
deriving DecidableEq

/-- The stepNotification object set on failure: { step: activeStep.id, ...ex }. -/
structure Notification where
  step : String
  err : StorageError
deriving DecidableEq

/-- Encryption settings held by the wizard and forwarded to applyStorage. -/
structure StorageEncryption where
  encrypt : Bool
  password : String

/-- State visible to the Footer handlers: the wizard-owned pieces reached
through setter props (isFormValid, stepNotification, isInProgress), the
Footer-local confirmation flags, the wizard context position in the
flattened sequence (goToNextStep / goToPrevStep move it), and a counter
of exitGui invocations standing for the external exit operation. -/
structure FooterUI where
  isFormValid : Bool
  stepNotification : Option Notification
  isInProgress : Bool
  nextWaitsConfirmation : Bool
  quitWaitsConfirmation : Bool
  stepPos : Nat
  exitGuiCalls : Nat
deriving DecidableEq

/-- Arguments of an applyStorage call issued by onNext: either the
encryption settings (disk-encryption branch) or the partitioning path
(mount-point-mapping branch). -/
inductive StorageRequest : Type where
  | applyEncryption (encrypt : Bool) (encryptPassword : String)
  | applyPartitioning (partitioning : Option String)
deriving DecidableEq

/-- Outcome of an asynchronous applyStorage call. -/
inductive ApplyResult : Type where
  | success
  | failure (ex : StorageError)

/-- Footer onNext handler (source lines 286-334) up to the point where
control leaves the handler: resets isFormValid to true, then branches on
the active step id.  The storage branches set isInProgress and issue an
applyStorage request whose continuations run later (applyStorageCallback);
the review branch raises the confirmation flag; any other step advances
immediately via goToNextStep, modelled as stepPos + 1. -/
def onNext (activeStepId : String) (storageEncryption : StorageEncryption)
    (partitioning : Option String) (s : FooterUI) : FooterUI × Option StorageRequest :=
  let s := { s with isFormValid := true }
  if activeStepId = "disk-encryption" then
    ({ s with isInProgress := true },
     some (.applyEncryption storageEncryption.encrypt storageEncryption.password))
  else if activeStepId = "installation-review" then
    ({ s with nextWaitsConfirmation := true }, none)
  else if activeStepId = "mount-point-mapping" then
    ({ s with isInProgress := true },
     some (.applyPartitioning partitioning))
  else
    ({ s with stepPos := s.stepPos + 1 }, none)

/-- The onFail / onSuccess continuation closures passed to applyStorage
(identical in the disk-encryption and mount-point-mapping branches):
onFail clears isInProgress and sets the step notification keyed by the
active step id; onSuccess advances one step, clears isInProgress and
clears the notification. -/
def applyStorageCallback (activeStepId : String) (res : ApplyResult) (s : FooterUI) : FooterUI :=
  match res with
  | .failure ex =>
      { s with isInProgress := false, stepNotification := some ⟨activeStepId, ex⟩ }
  | .success =>
      { s with stepPos := s.stepPos + 1, isInProgress := false, stepNotification := none }

/-- Footer onBack handler (source lines 336-340). -/
def onBack (s : FooterUI) : FooterUI :=
  { { s with isFormValid := true } with stepPos := s.stepPos - 1 }

/-- Quit/Reboot button click (source lines 412-421): only raises the
confirmation flag, the exit operation is not invoked. -/
def quitButtonClick (s : FooterUI) : FooterUI :=
  { s with quitWaitsConfirmation := true }

/-- Confirm action of QuitInstallationConfirmModal (source lines 433-442):
its onClick only invokes exitGui. -/
def quitModalConfirm (s : FooterUI) : FooterUI :=
  { s with exitGuiCalls := s.exitGuiCalls + 1 }

/-- Cancel action of QuitInstallationConfirmModal (source lines 443-449). -/
def quitModalCancel (s : FooterUI) : FooterUI :=
  { s with quitWaitsConfirmation := false }

/-- The onClose handler of QuitInstallationConfirmModal (source line 452). -/
def quitModalClose (s : FooterUI) : FooterUI :=
  { s with quitWaitsConfirmation := false }

/-- State reached by the goToStep handler of the wizard controller:
isFormValid and isInProgress setters, the location token set by
cockpit.location.go, and the contexts of raised onCritFail notifications. -/
structure NavState where
  isFormValid : Bool
  isInProgress : Bool
  location : String
  critFailContexts : List String
deriving DecidableEq

/-- Message built at source line 224: cockpit.format of the template with
the previous step display name substituted for the placeholder. -/
def backErrorContext (prevName : String) : String :=
  "Error was hit when going back from " ++ prevName ++ "."

/-- Outcome of the asynchronous resetPartitioning call. -/
inductive ResetResult : Type where
  | success
  | failure

/-- The goToStep handler (source lines 212-230) up to the point where
control leaves the handler.  prevId models prevStep.prevId (possibly
undefined, hence Option).  Returns the updated state and whether
resetPartitioning was invoked; its continuations are
resetPartitioningCallback. -/
def goToStep (currentId : String) (prevId : Option String) (s : NavState) : NavState × Bool :=
  let s := if prevId ≠ some currentId then { s with isFormValid := false } else s
  if prevId = some "installation-review" ∧ currentId ≠ "installation-progress" then
    ({ s with isInProgress := true }, true)
  else
    ({ s with location := currentId }, false)

/-- Continuations of the resetPartitioning promise (source lines 221-226):
then-success navigates to the new step, then-failure raises onCritFail
with the back-error context, and the always hook clears isInProgress in
both cases. -/
def resetPartitioningCallback (currentId prevName : String) (res : ResetResult)
    (s : NavState) : NavState :=
  let s := match res with
    | .success => { s with location := currentId }
    | .failure => { s with critFailContexts := s.critFailContexts ++ [backErrorContext prevName] }
  { s with isInProgress := false }

/-- Dependency values of the reusePartitioning effect (source lines 64-71):
the keys of storageData.devices and storageData.diskSelection.selectedDisks. -/
structure StorageDeps where
  availableDevices : List String
  selectedDisks : List String
deriving DecidableEq

/-- Body of the effect at source line 70: setReusePartitioning(false),
regardless of the previous value. -/
def reusePartitioningEffect (_reuse : Bool) : Bool := false

/-- Models React's useEffect dependency semantics for the effect at source
lines 64-71: on a re-render the effect body runs exactly when the
dependency values changed since the previous render, otherwise the state
is kept.  The body itself is reusePartitioningEffect, taken from the
source. -/
def reusePartitioningAfterRender (prevDeps newDeps : StorageDeps) (reuse : Bool) : Bool :=
  if newDeps = prevDeps then reuse else reusePartitioningEffect reuse

/-- C1: on the disk-encryption and mount-point-mapping steps, onNext sets
isInProgress and issues applyStorage with the encryption settings resp.
the partitioning path; the failure continuation ends with isInProgress
false, the notification keyed by the active step id carrying the error,
and the step position unchanged; the success continuation advances the
position by exactly one and clears isInProgress and the notification. -/
theorem onNext_storage_steps (activeStepId : String) (enc : StorageEncryption)
    (partitioning : Option String) (s : FooterUI)
    (h : activeStepId = "disk-encryption" ∨ activeStepId = "mount-point-mapping") :
    (onNext activeStepId enc partitioning s).1.isInProgress = true ∧
    (onNext activeStepId enc partitioning s).2 =
      some (if activeStepId = "disk-encryption"
        then StorageRequest.applyEncryption enc.encrypt enc.password
        else StorageRequest.applyPartitioning partitioning) ∧
    (∀ ex : StorageError,
      (applyStorageCallback activeStepId (.failure ex)
        (onNext activeStepId enc partitioning s).1).isInProgress = false ∧
      (applyStorageCallback activeStepId (.failure ex)
        (onNext activeStepId enc partitioning s).1).stepNotification = some ⟨activeStepId, ex⟩ ∧
      (applyStorageCallback activeStepId (.failure ex)
        (onNext activeStepId enc partitioning s).1).stepPos = s.stepPos) ∧
    ((applyStorageCallback activeStepId .success
        (onNext activeStepId enc partitioning s).1).stepPos = s.stepPos + 1 ∧
     (applyStorageCallback activeStepId .success
        (onNext activeStepId enc partitioning s).1).isInProgress = false ∧
     (applyStorageCallback activeStepId .success
        (onNext activeStepId enc partitioning s).1).stepNotification = none) := by
  rcases h with h | h <;> subst h <;> simp [onNext, applyStorageCallback]

/-- Witness for C1 at a concrete state, both storage steps exercised via
the disk-encryption branch. -/
theorem onNext_storage_steps_witness :
    (onNext "disk-encryption" ⟨true, "pw"⟩ none ⟨false, none, false, false, false, 2, 0⟩).1.isInProgress = true ∧
    (applyStorageCallback "disk-encryption" .success
      (onNext "disk-encryption" ⟨true, "pw"⟩ none ⟨false, none, false, false, false, 2, 0⟩).1).stepPos = 3 := by
  have h := onNext_storage_steps "disk-encryption" ⟨true, "pw"⟩ none
    ⟨false, none, false, false, false, 2, 0⟩ (Or.inl rfl)
  exact ⟨h.1, h.2.2.2.1⟩

/-- Counterexample to C2 as stated: the claim asserts that on completion of
resetPartitioning, success or failure alike, the handler navigates to the
new step.  On failure the source only raises onCritFail; the location
stays at its old value, here the review page, and is not the requested
"installation-method". -/
theorem goToStep_back_failure_counterexample :
    (resetPartitioningCallback "installation-method" "Review and install" ResetResult.failure
      (goToStep "installation-method" (some "installation-review")
        { isFormValid := true, isInProgress := false,
          location := "installation-review", critFailContexts := [] }).1).location
      = "installation-review" ∧
    (resetPartitioningCallback "installation-method" "Review and install" ResetResult.failure
      (goToStep "installation-method" (some "installation-review")
        { isFormValid := true, isInProgress := false,
          location := "installation-review", critFailContexts := [] }).1).location
      ≠ "installation-method" := by
  constructor <;> decide

/-- C2 amended: when the previous step id is the review step and the new
step is not the terminal progress view, goToStep sets isInProgress and
invokes resetPartitioning; on either completion isInProgress is cleared;
on success the handler navigates to the new step; on failure it does not
navigate and instead raises onCritFail with a context naming the previous
step's display name. -/
theorem goToStep_back_from_review (currentId prevName : String) (s : NavState)
    (h : currentId ≠ "installation-progress") :
    (goToStep currentId (some "installation-review") s).1.isInProgress = true ∧
    (goToStep currentId (some "installation-review") s).2 = true ∧
    (∀ res : ResetResult,
      (resetPartitioningCallback currentId prevName res
        (goToStep currentId (some "installation-review") s).1).isInProgress = false) ∧
    (resetPartitioningCallback currentId prevName .success
      (goToStep currentId (some "installation-review") s).1).location = currentId ∧
    (resetPartitioningCallback currentId prevName .failure
      (goToStep currentId (some "installation-review") s).1).location = s.location ∧
    (resetPartitioningCallback currentId prevName .failure
      (goToStep currentId (some "installation-review") s).1).critFailContexts
      = s.critFailContexts ++ [backErrorContext prevName] := by
  by_cases hc : ("installation-review" : String) = currentId <;>
    simp [goToStep, resetPartitioningCallback, hc, h]

/-- Witness for the amended C2 at a concrete state. -/
theorem goToStep_back_from_review_witness :
    (goToStep "installation-method" (some "installation-review")
      { isFormValid := true, isInProgress := false,
        location := "installation-review", critFailContexts := [] }).1.isInProgress = true ∧
    (resetPartitioningCallback "installation-method" "Review and install" .success
      (goToStep "installation-method" (some "installation-review")
        { isFormValid := true, isInProgress := false,
          location := "installation-review", critFailContexts := [] }).1).location
      = "installation-method" := by
  have h := goToStep_back_from_review "installation-method" "Review and install"
    { isFormValid := true, isInProgress := false,
      location := "installation-review", critFailContexts := [] } (by decide)
  exact ⟨h.1, h.2.2.2.1⟩

/-- C8: whenever the available-devices key list or the selected-disks list
differs from the previous render, the effect runs and reusePartitioning
becomes false regardless of its prior value. -/
theorem reusePartitioning_reset_on_deps_change (prevDeps newDeps : StorageDeps) (reuse : Bool)
    (h : prevDeps.availableDevices ≠ newDeps.availableDevices ∨
         prevDeps.selectedDisks ≠ newDeps.selectedDisks) :
    reusePartitioningAfterRender prevDeps newDeps reuse = false := by
  have hne : newDeps ≠ prevDeps := by
    rcases h with h | h <;> exact fun hEq => h (by rw [hEq])
  simp [reusePartitioningAfterRender, reusePartitioningEffect, hne]

/-- Witness for C8: adding a device resets a previously true flag. -/
theorem reusePartitioning_reset_witness :
    reusePartitioningAfterRender ⟨["sda"], ["sda"]⟩ ⟨["sda", "sdb"], ["sda"]⟩ true = false :=
  reusePartitioning_reset_on_deps_change _ _ _ (Or.inl (by decide))

/-- C9: clicking Quit/Reboot only raises quitWaitsConfirmation and does not
invoke exitGui; cancel in the modal lowers the flag without invoking
exitGui; confirm invokes exitGui exactly once. -/
theorem quit_confirmation_flow (s : FooterUI) :
    (quitButtonClick s).quitWaitsConfirmation = true ∧
    (quitButtonClick s).exitGuiCalls = s.exitGuiCalls ∧
    (quitModalCancel (quitButtonClick s)).quitWaitsConfirmation = false ∧
    (quitModalCancel (quitButtonClick s)).exitGuiCalls = s.exitGuiCalls ∧
    (quitModalConfirm (quitButtonClick s)).exitGuiCalls = s.exitGuiCalls + 1 := by
  simp [quitButtonClick, quitModalCancel, quitModalConfirm]

/-- C10: the confirm action of the quit modal invokes exitGui but leaves
quitWaitsConfirmation and every other footer/wizard field unchanged; only
the cancel action and the close handler lower the flag, and neither of
those invokes exitGui. -/
theorem quitModalConfirm_frame (s : FooterUI) :
    (quitModalConfirm s).exitGuiCalls = s.exitGuiCalls + 1 ∧
    (quitModalConfirm s).quitWaitsConfirmation = s.quitWaitsConfirmation ∧
    (quitModalConfirm s).nextWaitsConfirmation = s.nextWaitsConfirmation ∧
    (quitModalConfirm s).isFormValid = s.isFormValid ∧
    (quitModalConfirm s).stepNotification = s.stepNotification ∧
    (quitModalConfirm s).isInProgress = s.isInProgress ∧
    (quitModalConfirm s).stepPos = s.stepPos ∧
    (quitModalCancel s).quitWaitsConfirmation = false ∧
    (quitModalClose s).quitWaitsConfirmation = false ∧
    (quitModalCancel s).exitGuiCalls = s.exitGuiCalls ∧
    (quitModalClose s).exitGuiCalls = s.exitGuiCalls := by
  simp [quitModalConfirm, quitModalCancel, quitModalClose]

theorem findIdxOpt_eq_none_iff (x : String) (l : List String) :
    findIdxOpt x l = none ↔ x ∉ l := by
  induction l with
  | nil => simp [findIdxOpt]
  | cons a l ih =>
    by_cases h : a = x
    · subst h; simp [findIdxOpt]
    · simp [findIdxOpt, h, ih]
      exact fun _ e => h e.symm

theorem findIdxOpt_getElem (x : String) (l : List String) (i : Nat)
    (h : findIdxOpt x l = some i) : l[i]? = some x := by
  induction l generalizing i with
  | nil => simp [findIdxOpt] at h
  | cons a l ih =>
    by_cases ha : a = x
    · subst ha
      simp [findIdxOpt] at h
      simp [← h]
    · simp [findIdxOpt, ha, Option.map_eq_some'] at h
      obtain ⟨j, hj, rfl⟩ := h
      simpa using ih j hj

theorem findIdxOpt_of_nodup_getElem (l : List String) (hn : l.Nodup) (i : Nat) (x : String)
    (h : l[i]? = some x) : findIdxOpt x l = some i := by
  induction l generalizing i with
  | nil => simp at h
  | cons a l ih =>
    obtain ⟨ha, hl⟩ := List.nodup_cons.mp hn
    rcases i with _ | j
    · simp at h
      simp [findIdxOpt, h]
    · rw [List.getElem?_cons_succ] at h
      have hax : a ≠ x := by
        intro e
        exact ha (e ▸ List.getElem?_mem h)
      simp [findIdxOpt, hax, ih hl j h]

theorem findIndexJS_eq_neg_one_iff (l : List String) (x : String) :
    findIndexJS l x = -1 ↔ x ∉ l := by
  rcases hm : findIdxOpt x l with _ | i
  · simp [findIndexJS, hm, (findIdxOpt_eq_none_iff x l).mp hm]
  · have hmem : x ∈ l := by
      by_contra hx
      rw [(findIdxOpt_eq_none_iff x l).mpr hx] at hm
      cases hm
    simp [findIndexJS, hm, hmem]

theorem findIndexJS_nonneg_of_mem (l : List String) (x : String) (h : x ∈ l) :
    0 ≤ findIndexJS l x := by
  rcases hm : findIdxOpt x l with _ | i
  · exact absurd ((findIdxOpt_eq_none_iff x l).mp hm) (by simp [h])
  · simp [findIndexJS, hm]

theorem findIdxOpt_eq_indexOf (x : String) (l : List String) (h : x ∈ l) :
    findIdxOpt x l = some (l.indexOf x) := by
  induction l with
  | nil => simp at h
  | cons a l ih =>
    by_cases ha : a = x
    · subst ha; simp [findIdxOpt, List.indexOf_cons]
    · have hx : x ∈ l := by
        rcases List.mem_cons.mp h with he | hm
        · exact absurd he.symm ha
        · exact hm
      simp [findIdxOpt, ha, ih hx, List.indexOf_cons,
        (by simpa using ha : (a == x) = false)]

theorem findIndexJS_eq_indexOf (l : List String) (x : String) (h : x ∈ l) :
    findIndexJS l x = (l.indexOf x : Int) := by
  unfold findIndexJS
  rw [findIdxOpt_eq_indexOf x l h]

/-- C3: for ids that both occur in the flattened sequence, canJumpToStep is
true exactly when the target's index is at most the current index, and in
particular false whenever the target sits strictly later. -/
theorem canJumpToStep_iff (l : List String) (t c : String) (ht : t ∈ l) (hc : c ∈ l) :
    (canJumpToStep l t c = true ↔ l.indexOf t ≤ l.indexOf c) ∧
    (l.indexOf c < l.indexOf t → canJumpToStep l t c = false) := by
  have h1 := findIndexJS_eq_indexOf l t ht
  have h2 := findIndexJS_eq_indexOf l c hc
  constructor
  · unfold canJumpToStep
    rw [h1, h2]
    simp
  · intro hlt
    unfold canJumpToStep
    rw [h1, h2]
    simp
    omega

/-- Witness for C3 on the concrete two-step sequence. -/
theorem canJumpToStep_iff_witness :
    canJumpToStep ["installation-method", "installation-review"]
      "installation-method" "installation-review" = true :=
  ((canJumpToStep_iff ["installation-method", "installation-review"]
    "installation-method" "installation-review" (by decide) (by decide)).1).mpr (by decide)

/-- C6: over a non-empty duplicate-free flattened sequence, isFinishedStep
holds exactly for the last entry of the sequence. -/
theorem isFinishedStep_iff_last (l : List String) (hne : l ≠ []) (hn : l.Nodup)
    (stepId : String) : isFinishedStep l stepId = true ↔ stepId = l.getLast hne := by
  have hlen : 0 < l.length := List.length_pos.mpr hne
  unfold isFinishedStep findIndexJS
  rcases hm : findIdxOpt stepId l with _ | i
  · have hnotin := (findIdxOpt_eq_none_iff stepId l).mp hm
    have hlast := List.getLast_mem hne
    constructor
    · intro hbeq
      exfalso
      have : (-1 : Int) = (l.length : Int) - 1 := by simpa using hbeq
      omega
    · intro he
      exact absurd (he ▸ hlast) hnotin
  · have hget := findIdxOpt_getElem stepId l i hm
    constructor
    · intro hbeq
      have hi : (i : Int) = (l.length : Int) - 1 := by simpa using hbeq
      have hi2 : i = l.length - 1 := by omega
      subst hi2
      have hsome := List.getElem?_eq_getElem (l := l) (n := l.length - 1) (by omega)
      rw [hsome] at hget
      injection hget with hget
      rw [List.getLast_eq_getElem]
      exact hget.symm
    · intro he
      have hgl : l[l.length - 1]? = some (l.getLast hne) := by
        rw [List.getLast_eq_getElem]
        exact List.getElem?_eq_getElem (by omega)
      have h2 := findIdxOpt_of_nodup_getElem l hn (l.length - 1) stepId (he ▸ hgl)
      rw [hm] at h2
      injection h2 with h2
      subst h2
      simp
      omega

/-- Witness for C6 on the concrete two-step sequence. -/
theorem isFinishedStep_iff_last_witness :
    isFinishedStep ["installation-method", "installation-review"] "installation-review" = true :=
  (isFinishedStep_iff_last ["installation-method", "installation-review"]
    (by decide) (by decide) "installation-review").mpr (by decide)

/-- Counterexample to C7 as stated: with the non-boot flattened sequence
for the mount-point-mapping scenario, the current id
"installation-language" is absent (findIndex -1), yet canJumpToStep is
false for the present target "installation-method", not true for every
target as the claim asserts. -/
theorem canJumpToStep_absent_current_counterexample :
    findIndexJS (getFlattenedStepsIds (stepsOrder false "mount-point-mapping"))
      "installation-language" = -1 ∧
    canJumpToStep (getFlattenedStepsIds (stepsOrder false "mount-point-mapping"))
      "installation-method" "installation-language" = false := by
  constructor <;> decide

/-- C7 amended: when the current id is absent from the flattened sequence
(findIndex -1), canJumpToStep returns true exactly for targets that are
also absent, and false for every target present in the sequence. -/
theorem canJumpToStep_absent_current (l : List String) (t c : String) (hc : c ∉ l) :
    canJumpToStep l t c = true ↔ t ∉ l := by
  have h1 : findIndexJS l c = -1 := (findIndexJS_eq_neg_one_iff l c).mpr hc
  constructor
  · intro htrue hmem
    have hpos := findIndexJS_nonneg_of_mem l t hmem
    simp [canJumpToStep, h1] at htrue
    omega
  · intro hnot
    have h2 : findIndexJS l t = -1 := (findIndexJS_eq_neg_one_iff l t).mpr hnot
    simp [canJumpToStep, h1, h2]

/-- Witness for the amended C7: both ids absent, jump allowed. -/
theorem canJumpToStep_absent_current_witness :
    canJumpToStep ["installation-method"] "absent-target" "absent-current" = true :=
  (canJumpToStep_absent_current ["installation-method"] "absent-target" "absent-current"
    (by decide)).mpr (by decide)

/-- C5: in every tree built by stepsOrder, the disk-configuration group
holds exactly the mount-point-mapping and disk-encryption children, the
former hidden exactly when the scenario is not "mount-point-mapping", the
latter hidden exactly when it is, so exactly one of the two is visible. -/
theorem stepsOrder_one_disk_substep_visible (isBootIso : Bool) (sid : String) :
    ∃ mpm de : Step,
      (findStepById (stepsOrder isBootIso sid) "disk-configuration").bind Step.steps
        = some [mpm, de] ∧
      mpm.id = "mount-point-mapping" ∧ de.id = "disk-encryption" ∧
      (mpm.isHidden = some true ↔ sid ≠ "mount-point-mapping") ∧
      (de.isHidden = some true ↔ sid = "mount-point-mapping") ∧
      ((mpm.isHidden ≠ some true) ↔ (de.isHidden = some true)) := by
  cases isBootIso <;>
    refine ⟨_, _, rfl, rfl, rfl, ?_, ?_, ?_⟩ <;>
    by_cases hsid : sid = "mount-point-mapping" <;>
    simp [Step.isHidden, hsid]

theorem getFlattenedStepsIds_eq_flatMap (steps : List Step) :
    getFlattenedStepsIds steps = steps.flatMap nodeContrib := rfl

theorem filterMap_hidden_eq_filter_map (children : List Step) :
    (children.filterMap fun c => if c.isHidden = some true then none else some c.id)
      = (children.filter fun c => !(c.isHidden == some true)).map Step.id := by
  induction children with
  | nil => rfl
  | cons a l ih =>
    by_cases h : a.isHidden = some true <;>
      simp [List.filterMap_cons, List.filter_cons, h, ih]

theorem filterMap_hidden_sublist (children : List Step) :
    List.Sublist
      (children.filterMap fun c => if c.isHidden = some true then none else some c.id)
      (children.map Step.id) := by
  induction children with
  | nil => simp
  | cons a l ih =>
    by_cases h : a.isHidden = some true
    · simp [List.filterMap_cons, h]
      exact ih.cons _
    · simp [List.filterMap_cons, h]
      exact ih

theorem nodeContrib_sublist_nodeIds (s : Step) : List.Sublist (nodeContrib s) (nodeIds s) := by
  unfold nodeContrib nodeIds
  rcases hs : s.steps with _ | children
  · exact List.Sublist.refl _
  · exact (filterMap_hidden_sublist children).cons _

theorem flatMap_sublist_of_forall {α β : Type} (f g : α → List β) (l : List α)
    (h : ∀ a ∈ l, List.Sublist (f a) (g a)) : List.Sublist (l.flatMap f) (l.flatMap g) := by
  induction l with
  | nil => simp
  | cons a l ih =>
    simp only [List.flatMap_cons]
    exact (h a (by simp)).append (ih fun x hx => h x (by simp [hx]))

theorem getFlattenedStepsIds_sublist (steps : List Step) :
    List.Sublist (getFlattenedStepsIds steps) (descriptorIds steps) := by
  rw [getFlattenedStepsIds_eq_flatMap]
  exact flatMap_sublist_of_forall _ _ steps fun s _ => nodeContrib_sublist_nodeIds s

theorem mem_descriptorIds_of_child (steps : List Step) (s : Step) (hs : s ∈ steps)
    (cs : List Step) (hcs : s.steps = some cs) (c : Step) (hc : c ∈ cs) :
    c.id ∈ descriptorIds steps := by
  unfold descriptorIds
  rw [List.mem_flatMap]
  refine ⟨s, hs, ?_⟩
  unfold nodeIds
  rw [hcs]
  exact List.mem_cons_of_mem _ (List.mem_map.mpr ⟨c, hc, rfl⟩)

theorem hidden_child_not_mem (steps : List Step) (hn : (descriptorIds steps).Nodup)
    (s : Step) (hs : s ∈ steps) (cs : List Step) (hcs : s.steps = some cs)
    (c : Step) (hc : c ∈ cs) (hh : c.isHidden = some true) :
    c.id ∉ getFlattenedStepsIds steps := by
  induction steps with
  | nil => cases hs
  | cons a rest ih =>
    have hd : descriptorIds (a :: rest) = nodeIds a ++ descriptorIds rest := rfl
    rw [hd] at hn
    obtain ⟨hna, hnrest, hdisj⟩ := List.nodup_append.mp hn
    rw [getFlattenedStepsIds_eq_flatMap, List.flatMap_cons, ← getFlattenedStepsIds_eq_flatMap]
    intro hmem0
    rcases List.mem_append.mp hmem0 with hmem | hmem
    · rcases List.mem_cons.mp hs with rfl | hrest
      · -- same node: a visible child would duplicate the hidden child's id
        unfold nodeContrib at hmem
        rw [hcs] at hmem
        obtain ⟨c', hc', heq⟩ := List.mem_filterMap.mp hmem
        by_cases hh' : c'.isHidden = some true
        · rw [if_pos hh'] at heq
          cases heq
        · rw [if_neg hh'] at heq
          injection heq with heq
          have hmap : (cs.map Step.id).Nodup := by
            unfold nodeIds at hna
            rw [hcs] at hna
            exact (List.nodup_cons.mp hna).2
          have hcc : c' = c := List.inj_on_of_nodup_map hmap hc' hc heq
          exact hh' (hcc ▸ hh)
      · -- other node: its contribution is disjoint from the ids under s
        have h1 : c.id ∈ nodeIds a := (nodeContrib_sublist_nodeIds a).subset hmem
        have h2 : c.id ∈ descriptorIds rest := mem_descriptorIds_of_child rest s hrest cs hcs c hc
        exact hdisj h1 h2
    · rcases List.mem_cons.mp hs with rfl | hrest
      · -- the hidden child's id sits under the head node, disjoint from the rest
        have h1 : c.id ∈ nodeIds s := by
          unfold nodeIds
          rw [hcs]
          exact List.mem_cons_of_mem _ (List.mem_map.mpr ⟨c, hc, rfl⟩)
        have h2 : c.id ∈ descriptorIds rest := (getFlattenedStepsIds_sublist rest).subset hmem
        exact hdisj h1 h2
      · exact ih hnrest hrest hmem

/-- C4: the flattener agrees with the spec contract (group nodes contribute
their non-hidden children's ids and never their own id; non-group nodes
contribute their own id unconditionally), and on trees whose descriptors
carry pairwise-distinct ids the flattened sequence has no duplicates and
omits every hidden child id. -/
theorem getFlattenedStepsIds_spec (steps : List Step) :
    getFlattenedStepsIds steps = flattenedIdsOfSpec steps ∧
    ((descriptorIds steps).Nodup →
      (getFlattenedStepsIds steps).Nodup ∧
      ∀ s ∈ steps, ∀ cs, s.steps = some cs → ∀ c ∈ cs, c.isHidden = some true →
        c.id ∉ getFlattenedStepsIds steps) := by
  refine ⟨?_, fun hn =>
    ⟨List.Nodup.sublist (getFlattenedStepsIds_sublist steps) hn,
     fun s hs cs hcs c hc hh => hidden_child_not_mem steps hn s hs cs hcs c hc hh⟩⟩
  unfold getFlattenedStepsIds flattenedIdsOfSpec
  congr 1
  funext s
  rcases hs : s.steps with _ | children
  · rfl
  · exact filterMap_hidden_eq_filter_map children

/-- Witness for C4 on the boot-mode tree with the mount-point-mapping
scenario: distinct ids hold, the result is duplicate-free and omits the
hidden disk-encryption child. -/
theorem getFlattenedStepsIds_spec_witness :
    (getFlattenedStepsIds (stepsOrder true "mount-point-mapping")).Nodup ∧
    "disk-encryption" ∉ getFlattenedStepsIds (stepsOrder true "mount-point-mapping") := by
  have h := (getFlattenedStepsIds_spec (stepsOrder true "mount-point-mapping")).2 (by decide)
  refine ⟨h.1, ?_⟩
  exact h.2
    (Step.mk "disk-configuration" "Disk configuration" none (some
      [Step.mk "mount-point-mapping" "Manual disk configuration"
        (some ("mount-point-mapping" != "mount-point-mapping")) none,
       Step.mk "disk-encryption" "Disk encryption"
        (some ("mount-point-mapping" == "mount-point-mapping")) none]))
    (by simp [stepsOrder])
    _ rfl
    (Step.mk "disk-encryption" "Disk encryption"
      (some ("mount-point-mapping" == "mount-point-mapping")) none)
    (by simp) (by decide)

end Anaconda
